import Mathlib

/-!
Verification of the cricket bowling "Hawk-Eye" analyzer.

Shallow embedding of the analysis pipeline of this repository:
* `detectBall` embeds the per-frame ball localizer (`detectBall` in the
  `VideoAnalyzer` component), abstracting the vision primitives by the contour
  data they produce and threading an allocation counter that mirrors every
  `new Mat`/`imread`/`MatVector.get` allocation and every `.delete()` call.
* `sampleLoop`/`extractDetections` embed the temporal sampler
  (`extractDetections`), including the missing-dimensions precondition, the
  seek-failure path, per-step progress reporting and the
  `time <= duration && sampleIndex <= MAX_SAMPLES` loop.
* `handleAnalyze` embeds the `handleAnalyze` callback's state transition on
  the component state (error, isAnalyzing, progress, detections, trajectory,
  analysisTimestamp).
* `hawkBouncePoint` embeds the bounce-point scan of the `HawkEyeView`
  component.
* `convertDetectionsToHawkEye` and `summarizeTrajectory` are modelled from the
  spec (their source module `src/lib/trajectory` is not part of the sources).

JavaScript numbers are modelled by exact rationals (`ℚ`); the constant
`Math.PI` is embedded as the exact rational value of its IEEE-754 double.
-/

section

attribute [local semireducible] Rat.add Rat.mul Rat.inv Rat.sub

set_option maxRecDepth 200000

set_option maxHeartbeats 1000000

/-- JavaScript `Math.round`: round half toward positive infinity. -/
def jsRound (q : ℚ) : ℤ := ⌊q + 1 / 2⌋

/-- Exact rational value of the IEEE-754 double `Math.PI`. -/
def mathPI : ℚ := 884279719003555 / 281474976710656

/-- `SAMPLE_INTERVAL_SECONDS = 0.08` from the component module. -/
def SAMPLE_INTERVAL_SECONDS : ℚ := 8 / 100

/-- `MAX_SAMPLES = 320` from the component module. -/
def MAX_SAMPLES : ℕ := 320

/-- Default `downscaleWidth` parameter of `detectBall`. -/
def DOWNSCALE_WIDTH : ℕ := 480

/-- Error message thrown by `seekVideo` when a seek fails. -/
def seekFailMsg : String := "Failed to seek video frame."

/-- Error message thrown by `extractDetections` on missing dimensions. -/
def dimsUnavailableMsg : String := "Video dimensions unavailable. Please choose a different file."

/-- Error message thrown by `handleAnalyze` when no detections were found. -/
def noDetectionsMsg : String :=
  "No valid ball samples detected. Ensure the ball is clearly visible and contrasts with the pitch."

/-- Fallback message `handleAnalyze` shows for a non-`Error` thrown value. -/
def genericFailureMsg : String := "Video analysis failed due to an unexpected error."

/-- Message set by `handleAnalyze` when the video element is absent. -/
def videoNotReadyMsg : String := "Video element is not ready yet."

/-- Message set by `handleAnalyze` while the vision engine is loading. -/
def cvLoadingMsg : String := "Computer vision engine is still loading. Please wait a moment."

/-- Abstraction of one contour as the vision library reports it:
its area (`cv.contourArea`), closed perimeter (`cv.arcLength`) and image
moments (`cv.moments`). -/
structure ContourData where
  area : ℚ
  perimeter : ℚ
  m00 : ℚ
  m10 : ℚ
  m01 : ℚ
deriving DecidableEq

/-- Abstraction of the frame handed to `detectBall`: whether `cv.imread`
produced an empty matrix, the matrix dimensions, and the contours
that the masking/morphology pipeline yields on this frame. -/
structure FrameData where
  matEmpty : Bool
  cols : ℕ
  rows : ℕ
  contours : List ContourData
deriving DecidableEq

/-- Result candidate of `detectBall`. -/
structure Candidate where
  x : ℤ
  y : ℤ
  confidence : ℚ
deriving DecidableEq

/-- `circularity = (4 * Math.PI * area) / (perimeter * perimeter)`. -/
def circularityOf (c : ContourData) : ℚ :=
  4 * mathPI * c.area / (c.perimeter * c.perimeter)

/-- `score = circularity * area`. -/
def contourScore (c : ContourData) : ℚ := circularityOf c * c.area

/-- The best-contour selection loop of `detectBall`.  Arguments mirror the
JavaScript loop state: remaining contours, loop index `i`, `bestContourIndex`,
`bestScore`, and the number of live (allocated, not yet deleted) vision
handles.  Each iteration allocates one handle (`contours.get(i)`); the two
`continue` paths (`area < 15`, `perimeter === 0`) skip the `contour.delete()`
that the fall-through path performs, exactly as in the source. -/
def bestContourLoop : List ContourData → ℕ → ℤ → ℚ → ℤ → ℤ × ℚ × ℤ
  | [], _, bestIndex, bestScore, live => (bestIndex, bestScore, live)
  | c :: rest, i, bestIndex, bestScore, live =>
    if c.area < 15 then
      bestContourLoop rest (i + 1) bestIndex bestScore (live + 1)
    else if c.perimeter = 0 then
      bestContourLoop rest (i + 1) bestIndex bestScore (live + 1)
    else if bestScore < contourScore c then
      bestContourLoop rest (i + 1) (i : ℤ) (contourScore c) (live + 1 - 1)
    else
      bestContourLoop rest (i + 1) bestIndex bestScore (live + 1 - 1)

/-- Embedding of `detectBall`.  Returns the optional candidate together with
the number of vision handles still allocated when the function returns.  The
15 named buffers (`mat`, `resized`, `blurred`, `rgb`, `hsv`, `mask`, `mask1`,
`mask2`, `kernel`, `contours`, `hierarchy`, and the four range bounds) are all
deleted on the normal path, mirrored by the final `- 15`; the early
empty-frame exit deletes the single allocated `mat`. -/
def detectBall (fd : FrameData) : Option Candidate × ℤ :=
  if fd.matEmpty then
    (none, 1 - 1)
  else
    let scale : ℚ :=
      if DOWNSCALE_WIDTH < fd.cols then (DOWNSCALE_WIDTH : ℚ) / (fd.cols : ℚ) else 1
    let targetWidth : ℤ := jsRound ((fd.cols : ℚ) * scale)
    let targetHeight : ℤ := jsRound ((fd.rows : ℚ) * scale)
    let res := bestContourLoop fd.contours 0 (-1) 0 15
    let bestIndex := res.1
    let bestScore := res.2.1
    let live := res.2.2
    let final : Option Candidate × ℤ :=
      if 0 ≤ bestIndex then
        let c := fd.contours.getD bestIndex.toNat ⟨0, 0, 0, 0, 0⟩
        let r : Option Candidate :=
          if c.m00 = 0 then none
          else
            let scaleFactorX := (fd.cols : ℚ) / (targetWidth : ℚ)
            let scaleFactorY := (fd.rows : ℚ) / (targetHeight : ℚ)
            some { x := jsRound (c.m10 / c.m00 * scaleFactorX)
                   y := jsRound (c.m01 / c.m00 * scaleFactorY)
                   confidence := min 1 (bestScore / 1500) }
        (r, live + 1 - 1)
      else (none, live)
    (final.1, final.2 - 15)

/-- The maximum combined score over the contours that survive the area and
perimeter filters (the claims' characterization of `bestScore`). -/
def bestScoreSpec (fd : FrameData) : ℚ :=
  (fd.contours.filter fun c => !decide (c.area < 15) && !decide (c.perimeter = 0)).foldl
    (fun b c => max b (contourScore c)) 0

/-- One detection of the sampler, as pushed by `extractDetections`. -/
structure DetectionPoint where
  time : ℚ
  x : ℤ
  y : ℤ
  normX : ℚ
  normY : ℚ
  confidence : ℚ
deriving DecidableEq

/-- The intrinsic properties of the video element that `extractDetections`
reads: `videoWidth`, `videoHeight` and `duration`. -/
structure Video where
  width : ℕ
  height : ℕ
  duration : ℚ
deriving DecidableEq

/-- The DetectionPoint record literal pushed by `extractDetections`. -/
def mkDetection (t : ℚ) (c : Candidate) (w h : ℕ) : DetectionPoint :=
  { time := t, x := c.x, y := c.y, normX := (c.x : ℚ) / (w : ℚ),
    normY := (c.y : ℚ) / (h : ℚ), confidence := c.confidence }

/-- The sampling loop of `extractDetections`.  `sf t` tells whether the seek
to time `t` rejects (`seekVideo`'s error path); `det t` is the localizer's
result on the frame at time `t`.  The `ℕ` argument is the number of loop
entries still allowed by the `sampleIndex <= MAX_SAMPLES` bound; the loop is
entered while additionally `time <= duration`.  Returns the list of progress
values reported through `onProgress` (one per completed step) and either the
accumulated detections or the first seek error. -/
def sampleLoop (sf : ℚ → Bool) (det : ℚ → Option Candidate) (w h : ℕ)
    (duration interval : ℚ) :
    ℕ → ℚ → List DetectionPoint → List ℚ → List ℚ × Except String (List DetectionPoint)
  | 0, _, accD, accP => (accP.reverse, .ok accD.reverse)
  | r + 1, time, accD, accP =>
    if time ≤ duration then
      if sf time then (accP.reverse, .error seekFailMsg)
      else
        sampleLoop sf det w h duration interval r (time + interval)
          (match det time with
            | some c => mkDetection time c w h :: accD
            | none => accD)
          (min 1 (time / duration) :: accP)
    else (accP.reverse, .ok accD.reverse)

/-- Embedding of `extractDetections`: the missing-dimensions precondition
check followed by the sampling loop with
`interval = max(SAMPLE_INTERVAL_SECONDS, duration / MAX_SAMPLES)` starting at
`time = 0, sampleIndex = 0`. -/
def extractDetections (v : Video) (sf : ℚ → Bool) (det : ℚ → Option Candidate) :
    List ℚ × Except String (List DetectionPoint) :=
  if v.width = 0 ∨ v.height = 0 then ([], .error dimsUnavailableMsg)
  else
    let interval := max SAMPLE_INTERVAL_SECONDS (v.duration / (MAX_SAMPLES : ℚ))
    sampleLoop sf det v.width v.height v.duration interval (MAX_SAMPLES + 1) 0 [] []

/-- A projected trajectory point. -/
structure HawkEyePoint where
  time : ℚ
  distance : ℚ
  lateral : ℚ
  height : ℚ
  confidence : ℚ
deriving DecidableEq

/-- `PITCH_LENGTH_METERS = 20.12` (also fixed in `HawkEyeView`). -/
def PITCH_LENGTH_METERS : ℚ := 2012 / 100

/-- `PITCH_WIDTH_METERS = 3.05` (also fixed in `HawkEyeView`). -/
def PITCH_WIDTH_METERS : ℚ := 305 / 100

/-- Modelled from the spec: the TrajectoryProjector `convertDetectionsToHawkEye`
of `src/lib/trajectory`, whose source is not under the available sources.  Per
the spec it is a pure, per-point, deterministic geometric map into the fixed
pitch frame: `time` and `confidence` pass through unchanged, down-pitch
`distance` grows monotonically as the normalized vertical position `normY`
decreases toward the far end, `lateral` is the signed offset of `normX` about
the pitch center-line scaled to the pitch width, and `height` is driven by the
normalized vertical position.  The exact calibration formula is left open by
the spec; this model fixes one satisfying those constraints. -/
def convertDetectionsToHawkEye (ds : List DetectionPoint) : List HawkEyePoint :=
  ds.map fun d =>
    { time := d.time
      distance := (1 - d.normY) * PITCH_LENGTH_METERS
      lateral := (d.normX - 1 / 2) * PITCH_WIDTH_METERS
      height := (1 - d.normY) * 2
      confidence := d.confidence }

/-- First trajectory point (scanning in order, index > 0) whose height is
strictly below its immediate predecessor's height; `none` when no height ever
decreases versus its predecessor. -/
def firstDescent : List HawkEyePoint → Option HawkEyePoint
  | a :: b :: rest => if b.height < a.height then some b else firstDescent (b :: rest)
  | _ => none

/-- The derived flight metrics record. -/
structure TrajectorySummary where
  releaseSpeed : Option ℚ
  peakHeight : Option ℚ
  bounceDistance : Option ℚ
  lateralMovement : Option ℚ
  confidence : Option ℚ
deriving DecidableEq

/-- Modelled from the spec: the TrajectorySummarizer `summarizeTrajectory` of
`src/lib/trajectory`, whose source is not under the available sources.  Per
the spec it is pure and total; `releaseSpeed` comes from the earliest
consecutive distance/time deltas converted to km/h, `peakHeight` is the
maximum height, `bounceDistance` is the distance at the first point whose
height decreases versus its immediate predecessor (absent when no such
transition exists), `lateralMovement` is the spread between extreme lateral
values, and `confidence` aggregates per-point confidences; every field is
absent rather than zero on insufficient data. -/
def summarizeTrajectory (detections : List DetectionPoint)
    (trajectory : List HawkEyePoint) : TrajectorySummary :=
  { releaseSpeed :=
      match trajectory with
      | a :: b :: _ =>
        if a.time < b.time then
          some ((b.distance - a.distance) / (b.time - a.time) * (18 / 5))
        else none
      | _ => none
    peakHeight :=
      match trajectory with
      | [] => none
      | a :: rest => some (rest.foldl (fun m p => max m p.height) a.height)
    bounceDistance := (firstDescent trajectory).map fun p => p.distance
    lateralMovement :=
      match trajectory with
      | a :: b :: rest =>
        some (rest.foldl (fun m p => max m p.lateral) (max a.lateral b.lateral) -
          rest.foldl (fun m p => min m p.lateral) (min a.lateral b.lateral))
      | _ => none
    confidence :=
      match trajectory with
      | [] => none
      | a :: rest =>
        some ((rest.foldl (fun m p => m + p.confidence) a.confidence) /
          ((trajectory.length : ℚ))) }

/-- One step of the `points.forEach` bounce scan in `HawkEyeView`: the
accumulator carries `bestBounce` and the previous point (`points[index - 1]`,
absent at index 0). -/
def bounceStep (acc : Option HawkEyePoint × Option HawkEyePoint)
    (point : HawkEyePoint) : Option HawkEyePoint × Option HawkEyePoint :=
  let isBounceCandidate : Bool :=
    match acc.2 with
    | some prev => decide (point.height < prev.height)
    | none => false
  (if isBounceCandidate && acc.1.isNone then some point else acc.1, some point)

/-- The `bestBounce` value computed by `HawkEyeView` over the trajectory. -/
def hawkBouncePoint (points : List HawkEyePoint) : Option HawkEyePoint :=
  (points.foldl bounceStep (none, none)).1

/-- The component state that `handleAnalyze` reads and writes. -/
structure UiState where
  error : Option String
  isAnalyzing : Bool
  progress : ℚ
  detections : List DetectionPoint
  trajectory : List HawkEyePoint
  analysisTimestamp : Option ℕ
deriving DecidableEq

/-- Embedding of the `handleAnalyze` callback as a transition on `UiState`.
`videoReady`/`cvReady` are the guard conditions; every value thrown inside the
`try` block is an `Error`, so the catch branch always surfaces the thrown
message (`genericFailureMsg` is its fallback for non-`Error` values, which the
analysis path never throws). -/
def handleAnalyze (videoReady cvReady : Bool) (v : Video) (sf : ℚ → Bool)
    (det : ℚ → Option Candidate) (now : ℕ) (s : UiState) : UiState :=
  if !videoReady then { s with error := some videoNotReadyMsg }
  else if !cvReady then { s with error := some cvLoadingMsg }
  else
    let s1 : UiState := { s with isAnalyzing := true, error := none, progress := 0 }
    match extractDetections v sf det with
    | (reports, Except.error e) =>
      { s1 with progress := reports.getLastD 0, error := some e, isAnalyzing := false }
    | (reports, Except.ok ds) =>
      if ds.isEmpty then
        { s1 with
            progress := reports.getLastD 0
            error := some noDetectionsMsg
            isAnalyzing := false }
      else
        { s1 with
            detections := ds
            trajectory := convertDetectionsToHawkEye ds
            analysisTimestamp := some now
            progress := 1
            isAnalyzing := false }

deriving instance DecidableEq for Except

/-- The reports list grows by at most one entry per completed loop entry. -/
theorem sampleLoop_reports_len (sf : ℚ → Bool) (det : ℚ → Option Candidate)
    (w h : ℕ) (d i : ℚ) :
    ∀ (r : ℕ) (t : ℚ) (accD : List DetectionPoint) (accP : List ℚ),
      ((sampleLoop sf det w h d i r t accD accP).1).length ≤ accP.length + r := by
  intro r
  induction r with
  | zero => intro t accD accP; simp [sampleLoop]
  | succ r ih =>
    intro t accD accP
    simp only [sampleLoop]
    split
    · split
      · simp
      · refine le_trans (ih _ _ _) ?_
        simp
        omega
    · simp

/-- The reported progress sequence does not depend on the localizer results,
the frame dimensions, or the accumulated detections. -/
theorem sampleLoop_reports_congr (sf : ℚ → Bool) (det det' : ℚ → Option Candidate)
    (w h w' h' : ℕ) (d i : ℚ) :
    ∀ (r : ℕ) (t : ℚ) (accD accD' : List DetectionPoint) (accP : List ℚ),
      (sampleLoop sf det w h d i r t accD accP).1 =
        (sampleLoop sf det' w' h' d i r t accD' accP).1 := by
  intro r
  induction r with
  | zero => intro t accD accD' accP; simp [sampleLoop]
  | succ r ih =>
    intro t accD accD' accP
    simp only [sampleLoop]
    split
    · split
      · rfl
      · exact ih _ _ _ _
    · rfl

/-- The only error the sampling loop itself produces is the seek failure. -/
theorem sampleLoop_error_eq (sf : ℚ → Bool) (det : ℚ → Option Candidate)
    (w h : ℕ) (d i : ℚ) :
    ∀ (r : ℕ) (t : ℚ) (accD : List DetectionPoint) (accP : List ℚ) (e : String),
      (sampleLoop sf det w h d i r t accD accP).2 = Except.error e → e = seekFailMsg := by
  intro r
  induction r with
  | zero => intro t accD accP e he; simp [sampleLoop] at he
  | succ r ih =>
    intro t accD accP e he
    simp only [sampleLoop] at he
    split at he
    · split at he
      · simpa using he.symm
      · exact ih _ _ _ _ he
    · simp at he

/-- Every detection the loop returns beyond the accumulator is a
`mkDetection` of a successful localizer result. -/
theorem sampleLoop_detections_mem (sf : ℚ → Bool) (det : ℚ → Option Candidate)
    (w h : ℕ) (d i : ℚ) (P : DetectionPoint → Prop)
    (hP : ∀ t c, det t = some c → P (mkDetection t c w h)) :
    ∀ (r : ℕ) (t : ℚ) (accD : List DetectionPoint) (accP : List ℚ)
      (ds : List DetectionPoint),
      (∀ dp ∈ accD, P dp) →
      (sampleLoop sf det w h d i r t accD accP).2 = Except.ok ds →
      ∀ dp ∈ ds, P dp := by
  intro r
  induction r with
  | zero =>
    intro t accD accP ds hacc he dp hdp
    simp only [sampleLoop, Except.ok.injEq] at he
    subst he
    exact hacc dp (List.mem_reverse.mp hdp)
  | succ r ih =>
    intro t accD accP ds hacc he dp hdp
    simp only [sampleLoop] at he
    split at he
    · split at he
      · simp at he
      · refine ih _ _ _ _ ?_ he dp hdp
        rcases hdet : det t with _ | c
        · simpa [hdet] using hacc
        · simp only [hdet]
          intro dp' hdp'
          rcases List.mem_cons.mp hdp' with h1 | h1
          · subst h1; exact hP t c hdet
          · exact hacc dp' h1
    · simp only [Except.ok.injEq] at he
      subst he
      exact hacc dp (List.mem_reverse.mp hdp)
  
/-- Detections are appended with the current sample time, which advances by a
positive interval, so the returned sequence is strictly increasing in time. -/
theorem sampleLoop_times_chain (sf : ℚ → Bool) (det : ℚ → Option Candidate)
    (w h : ℕ) (d i : ℚ) (hi : 0 < i) :
    ∀ (r : ℕ) (t : ℚ) (accD : List DetectionPoint) (accP : List ℚ)
      (ds : List DetectionPoint),
      (∀ dp ∈ accD, dp.time < t) →
      List.Chain' (fun a b => b.time < a.time) accD →
      (sampleLoop sf det w h d i r t accD accP).2 = Except.ok ds →
      List.Chain' (fun a b : DetectionPoint => a.time < b.time) ds := by
  intro r
  induction r with
  | zero =>
    intro t accD accP ds _ hchain he
    simp only [sampleLoop, Except.ok.injEq] at he
    subst he
    rw [List.chain'_reverse]
    exact hchain
  | succ r ih =>
    intro t accD accP ds hbound hchain he
    simp only [sampleLoop] at he
    split at he
    · split at he
      · simp at he
      · refine ih _ _ _ _ ?_ ?_ he
        · rcases hdet : det t with _ | c
          · simp only [hdet]
            intro dp hdp
            exact lt_trans (hbound dp hdp) (lt_add_of_pos_right t hi)
          · simp only [hdet]
            intro dp hdp
            rcases List.mem_cons.mp hdp with h1 | h1
            · subst h1; exact lt_add_of_pos_right t hi
            · exact lt_trans (hbound dp h1) (lt_add_of_pos_right t hi)
        · rcases hdet : det t with _ | c
          · simpa [hdet] using hchain
          · simp only [hdet]
            refine List.chain'_cons'.mpr ⟨?_, hchain⟩
            intro b hb
            exact hbound b (List.mem_of_mem_head? hb)
    · simp only [Except.ok.injEq] at he
      subst he
      rw [List.chain'_reverse]
      exact hchain

/-- The reported progress values are monotonically non-decreasing. -/
theorem sampleLoop_progress_chain (sf : ℚ → Bool) (det : ℚ → Option Candidate)
    (w h : ℕ) (d i : ℚ) (hd : 0 ≤ d) (hi : 0 ≤ i) :
    ∀ (r : ℕ) (t : ℚ) (accD : List DetectionPoint) (accP : List ℚ),
      (∀ p ∈ accP, p ≤ min 1 (t / d)) →
      List.Chain' (fun a b : ℚ => b ≤ a) accP →
      List.Chain' (fun a b : ℚ => a ≤ b) ((sampleLoop sf det w h d i r t accD accP).1) := by
  have hstep : ∀ t : ℚ, min 1 (t / d) ≤ min 1 ((t + i) / d) := by
    intro t
    rcases hd.eq_or_lt with h0 | h0
    · simp [← h0]
    · exact min_le_min le_rfl ((div_le_div_iff_of_pos_right h0).mpr (le_add_of_nonneg_right hi))
  intro r
  induction r with
  | zero =>
    intro t accD accP _ hchain
    simp only [sampleLoop]
    rw [List.chain'_reverse]
    exact hchain
  | succ r ih =>
    intro t accD accP hbound hchain
    simp only [sampleLoop]
    split
    · split
      · rw [List.chain'_reverse]; exact hchain
      · refine ih _ _ _ ?_ ?_
        · intro p hp
          rcases List.mem_cons.mp hp with h1 | h1
          · subst h1; exact hstep t
          · exact le_trans (hbound p h1) (hstep t)
        · refine List.chain'_cons'.mpr ⟨?_, hchain⟩
          intro b hb
          exact hbound b (List.mem_of_mem_head? hb)
    · rw [List.chain'_reverse]; exact hchain

/-- The `bestScore` component of the selection loop is the running maximum of
the scores of the contours that pass the area and perimeter filters. -/
theorem bestContourLoop_score :
    ∀ (l : List ContourData) (i : ℕ) (bi : ℤ) (bs : ℚ) (live : ℤ),
      (bestContourLoop l i bi bs live).2.1 =
        (l.filter fun c => !decide (c.area < 15) && !decide (c.perimeter = 0)).foldl
          (fun b c => max b (contourScore c)) bs := by
  intro l
  induction l with
  | nil => intro i bi bs live; rfl
  | cons c rest ih =>
    intro i bi bs live
    simp only [bestContourLoop, List.filter_cons]
    by_cases h1 : c.area < 15
    · rw [if_pos h1]
      have hc : (!decide (c.area < 15) && !decide (c.perimeter = 0)) = false := by
        simp [h1]
      rw [hc]
      simp only [Bool.false_eq_true, if_false]
      exact ih _ _ _ _
    · by_cases h2 : c.perimeter = 0
      · rw [if_neg h1, if_pos h2]
        have hc : (!decide (c.area < 15) && !decide (c.perimeter = 0)) = false := by
          simp [h2]
        rw [hc]
        simp only [Bool.false_eq_true, if_false]
        exact ih _ _ _ _
      · rw [if_neg h1, if_neg h2]
        have hc : (!decide (c.area < 15) && !decide (c.perimeter = 0)) = true := by
          simp [h1, h2]
        rw [hc]
        simp only [if_true, List.foldl_cons]
        by_cases h3 : bs < contourScore c
        · rw [if_pos h3, ih, max_eq_right h3.le]
        · rw [if_neg h3, ih, max_eq_left (not_lt.mp h3)]

/-- A `max`-fold only grows its starting value. -/
theorem le_foldl_max :
    ∀ (l : List ContourData) (b : ℚ), b ≤ l.foldl (fun x c => max x (contourScore c)) b := by
  intro l
  induction l with
  | nil => intro b; exact le_rfl
  | cons c rest ih =>
    intro b
    exact le_trans (le_max_left b (contourScore c)) (ih _)

/-- The loop's best score dominates zero. -/
theorem bestScoreSpec_nonneg (fd : FrameData) : 0 ≤ bestScoreSpec fd :=
  le_foldl_max _ 0

/-- When `detectBall` produces a candidate, its confidence is the normalized
best score. -/
theorem detectBall_some_confidence (fd : FrameData) (r : Candidate)
    (h : (detectBall fd).1 = some r) :
    r.confidence = min 1 (bestScoreSpec fd / 1500) := by
  unfold detectBall at h
  by_cases hm : fd.matEmpty
  · simp [hm] at h
  · simp only [hm, Bool.false_eq_true, if_false] at h
    split at h
    · split at h
      · simp at h
      · rw [Option.some.injEq] at h
        subst h
        rw [bestContourLoop_score]
        rfl
    · simp at h

/-- The confidence of any produced candidate lies in the unit interval. -/
theorem detectBall_confidence_mem (fd : FrameData) (r : Candidate)
    (h : (detectBall fd).1 = some r) : 0 ≤ r.confidence ∧ r.confidence ≤ 1 := by
  rw [detectBall_some_confidence fd r h]
  constructor
  · exact le_min zero_le_one (div_nonneg (bestScoreSpec_nonneg fd) (by norm_num))
  · exact min_le_left _ _

/-- Once `bestBounce` is set, the `HawkEyeView` scan keeps it. -/
theorem bounceStep_foldl_some :
    ∀ (l : List HawkEyePoint) (b : HawkEyePoint) (p : Option HawkEyePoint),
      (l.foldl bounceStep (some b, p)).1 = some b := by
  intro l
  induction l with
  | nil => intro b p; rfl
  | cons q rest ih =>
    intro b p
    simp only [List.foldl_cons]
    have : bounceStep (some b, p) q = (some b, some q) := by
      simp [bounceStep]
    rw [this]
    exact ih _ _

/-- With an unset `bestBounce` and previous point `q`, the scan returns the
first descent of `q :: l`. -/
theorem bounceStep_foldl_none :
    ∀ (l : List HawkEyePoint) (q : HawkEyePoint),
      (l.foldl bounceStep (none, some q)).1 = firstDescent (q :: l) := by
  intro l
  induction l with
  | nil => intro q; rfl
  | cons a rest ih =>
    intro a0
    simp only [List.foldl_cons]
    by_cases hlt : a.height < a0.height
    · have : bounceStep (none, some a0) a = (some a, some a) := by
        simp [bounceStep, hlt]
      rw [this, bounceStep_foldl_some, firstDescent, if_pos hlt]
    · have : bounceStep (none, some a0) a = (none, some a) := by
        simp [bounceStep, hlt]
      rw [this, ih, firstDescent, if_neg hlt]

/-- The `HawkEyeView` scan computes exactly the first strict height descent. -/
theorem hawkBouncePoint_eq_firstDescent (ps : List HawkEyePoint) :
    hawkBouncePoint ps = firstDescent ps := by
  cases ps with
  | nil => rfl
  | cons q l =>
    unfold hawkBouncePoint
    simp only [List.foldl_cons]
    have : bounceStep (none, none) q = (none, some q) := by
      simp [bounceStep]
    rw [this]
    exact bounceStep_foldl_none l q

/-- If no point's height drops below its predecessor's, there is no first
descent. -/
theorem firstDescent_eq_none_of_chain :
    ∀ ps : List HawkEyePoint,
      List.Chain' (fun a b => a.height ≤ b.height) ps → firstDescent ps = none := by
  intro ps
  induction ps with
  | nil => intro _; rfl
  | cons a rest ih =>
    intro hch
    cases rest with
    | nil => rfl
    | cons b tail =>
      rw [List.chain'_cons] at hch
      rw [firstDescent, if_neg (not_lt.mpr hch.1)]
      exact ih hch.2

/-- Claim C1, as stated, is false: the final reported progress is
`min(1, t_last/duration)` for the last sampled time `t_last ≤ duration`, which
is below 1 whenever the duration is not an integer multiple of the sampling
interval.  On a 0.1 s clip the floor interval 0.08 s gives final progress
0.8, not 1.0. -/
theorem extract_final_progress_not_one_cex :
    ((extractDetections ⟨1, 1, 1 / 10⟩ (fun _ => false) (fun _ => none)).1).getLast? =
      some (4 / 5) ∧ ((4 : ℚ) / 5) ≠ 1 :=
  ⟨by decide, by decide⟩

/-- Claim C1 (amended): `extractDetections` reports `min(1, time/duration)`
after every sampled step — the reported sequence does not depend on the
localizer's hits at all — and the sequence is monotonically non-decreasing;
for the 2.0 s clip with the 0.08 s floor interval (duration an exact multiple
of the interval, in exact rational arithmetic) the final reported value is
1.0, over 26 sampled steps, but the final value is not 1.0 for every clip. -/
theorem extract_progress_monotone_amended (v : Video) (sf : ℚ → Bool)
    (det : ℚ → Option Candidate) (hd : 0 ≤ v.duration) :
    List.Chain' (fun a b : ℚ => a ≤ b) (extractDetections v sf det).1 ∧
    (extractDetections v sf det).1 = (extractDetections v sf fun _ => none).1 ∧
    (v.duration = 2 → v.width ≠ 0 → v.height ≠ 0 → (∀ t, sf t = false) →
      (extractDetections v sf det).1.getLast? = some 1 ∧
      (extractDetections v sf det).1.length = 26) := by
  obtain ⟨w, h, d⟩ := v
  refine ⟨?_, ?_, ?_⟩
  · by_cases hc : w = 0 ∨ h = 0
    · simp [extractDetections, hc]
    · simp only [extractDetections, if_neg hc]
      refine sampleLoop_progress_chain sf det w h d _ hd ?_ _ 0 [] [] ?_ List.chain'_nil
      · exact le_trans (by norm_num [SAMPLE_INTERVAL_SECONDS]) (le_max_left _ _)
      · intro p hp
        simp at hp
  · by_cases hc : w = 0 ∨ h = 0
    · simp [extractDetections, hc]
    · simp only [extractDetections, if_neg hc]
      apply sampleLoop_reports_congr
  · rintro rfl hw hh hs
    have hsf : sf = fun _ => false := funext hs
    subst hsf
    have key : (extractDetections ⟨w, h, 2⟩ (fun _ => false) det).1 =
        (extractDetections ⟨1, 1, 2⟩ (fun _ => false) (fun _ => none)).1 := by
      simp only [extractDetections]
      rw [if_neg (by simp [hw, hh]), if_neg (by simp)]
      apply sampleLoop_reports_congr
    rw [key]
    exact ⟨by decide, by decide⟩

/-- Claim C1 witness: the amended theorem applied to the 2.0 s clip. -/
theorem extract_progress_monotone_amended_witness :
    (0 : ℚ) ≤ (Video.mk 1 1 2).duration ∧
    ((extractDetections ⟨1, 1, 2⟩ (fun _ => false) (fun _ => none)).1.getLast? = some 1 ∧
      (extractDetections ⟨1, 1, 2⟩ (fun _ => false) (fun _ => none)).1.length = 26) :=
  ⟨by decide,
    (extract_progress_monotone_amended ⟨1, 1, 2⟩ (fun _ => false) (fun _ => none)
      (by decide)).2.2 rfl (by decide) (by decide) (fun _ => rfl)⟩

/-- Claim C2, as stated, is false: the loop guard `sampleIndex <= MAX_SAMPLES`
lets sample indices 0 through 320 inclusive pass, so a clip whose duration is an
exact multiple of `duration / MAX_SAMPLES` performs 321 sampled steps — more
than 320.  A 320 s clip (interval 1 s) steps at t = 0, 1, …, 320. -/
theorem extract_steps_exceed_limit_cex :
    ((extractDetections ⟨1, 1, 320⟩ (fun _ => false) (fun _ => none)).1).length = 321 ∧
    ¬(321 ≤ MAX_SAMPLES) :=
  ⟨by decide, by decide⟩

/-- Claim C2 (amended): the sampler uses interval
`max(SAMPLE_INTERVAL_SECONDS, duration / MAX_SAMPLES)` and iterates
`time = 0, interval, 2·interval, …` while `time ≤ duration` and the sample
index is at most `MAX_SAMPLES = 320` (indices 0..320 inclusive); hence no run
performs more than `MAX_SAMPLES + 1 = 321` sampled steps, and a 2.0 s clip
yields exactly `⌈2.0/0.08⌉ + 1 = 26` sampled steps. -/
theorem extract_step_bound_amended (v : Video) (sf : ℚ → Bool)
    (det : ℚ → Option Candidate) :
    (extractDetections v sf det).1.length ≤ MAX_SAMPLES + 1 ∧
    (v.duration = 2 → v.width ≠ 0 → v.height ≠ 0 → (∀ t, sf t = false) →
      (extractDetections v sf det).1.length = 26) := by
  obtain ⟨w, h, d⟩ := v
  constructor
  · by_cases hc : w = 0 ∨ h = 0
    · simp [extractDetections, hc]
    · simp only [extractDetections, if_neg hc]
      simpa using sampleLoop_reports_len sf det w h d
        (max SAMPLE_INTERVAL_SECONDS (d / (MAX_SAMPLES : ℚ))) (MAX_SAMPLES + 1) 0 [] []
  · rintro rfl hw hh hs
    have hsf : sf = fun _ => false := funext hs
    subst hsf
    have key : (extractDetections ⟨w, h, 2⟩ (fun _ => false) det).1 =
        (extractDetections ⟨1, 1, 2⟩ (fun _ => false) (fun _ => none)).1 := by
      simp only [extractDetections]
      rw [if_neg (by simp [hw, hh]), if_neg (by simp)]
      apply sampleLoop_reports_congr
    rw [key]
    decide

/-- Claim C2 witness: the amended bound applied to the 2.0 s clip. -/
theorem extract_step_bound_amended_witness :
    (Video.mk 1 1 2).duration = 2 ∧
    (extractDetections ⟨1, 1, 2⟩ (fun _ => false) (fun _ => none)).1.length = 26 :=
  ⟨rfl,
    (extract_step_bound_amended ⟨1, 1, 2⟩ (fun _ => false) (fun _ => none)).2 rfl
      (by decide) (by decide) (fun _ => rfl)⟩

/-- Claim C3: the claim is right and the code is wrong.  The `continue` paths
of the contour loop (`area < 15`, and `perimeter === 0` for a qualifying
area) skip the `contour.delete()` call performed by the fall-through path, so
one contour handle per early-rejected contour is still allocated when
`detectBall` returns: on a frame with one contour of area 5 (below the
threshold of 15) one handle leaks, and likewise for a zero-perimeter contour,
while a frame whose contours all reach the scoring path releases everything.
The claim `(detectBall fd).2 = 0` for every frame is thereby refuted. -/
theorem detectBall_leaks_on_early_rejection :
    (detectBall ⟨false, 100, 100, [⟨5, 10, 1, 1, 1⟩]⟩).2 = 1 ∧
    (detectBall ⟨false, 100, 100, [⟨20, 0, 1, 1, 1⟩]⟩).2 = 1 ∧
    (detectBall ⟨false, 100, 100, [⟨20, 10, 1, 50, 50⟩]⟩).2 = 0 ∧
    (detectBall ⟨true, 100, 100, []⟩).2 = 0 ∧
    ((1 : ℤ) = 0 → False) :=
  ⟨by decide, by decide, by decide, by decide, by decide⟩

/-- Claim C4: a completed sampling pass with zero detections makes the run
fail with the specific ball-visibility message — distinct from the generic
unexpected-failure message — and commits no trajectory and no detections. -/
theorem analyze_zero_detections_specific_error (v : Video) (sf : ℚ → Bool)
    (det : ℚ → Option Candidate) (now : ℕ) (s : UiState)
    (h : (extractDetections v sf det).2 = Except.ok []) :
    (handleAnalyze true true v sf det now s).error = some noDetectionsMsg ∧
    noDetectionsMsg ≠ genericFailureMsg ∧
    (handleAnalyze true true v sf det now s).trajectory = s.trajectory ∧
    (handleAnalyze true true v sf det now s).detections = s.detections ∧
    (handleAnalyze true true v sf det now s).isAnalyzing = false := by
  rcases hE : extractDetections v sf det with ⟨reports, res⟩
  rw [hE] at h
  simp only at h
  subst h
  refine ⟨?_, by decide, ?_, ?_, ?_⟩ <;>
    simp [handleAnalyze, hE]

/-- Claim C4 witness: a 0 s clip with no localizer hits. -/
theorem analyze_zero_detections_specific_error_witness :
    (extractDetections ⟨1, 1, 0⟩ (fun _ => false) (fun _ => none)).2 = Except.ok [] ∧
    ((handleAnalyze true true ⟨1, 1, 0⟩ (fun _ => false) (fun _ => none) 3
        ⟨none, false, 0, [], [], none⟩).error = some noDetectionsMsg ∧
      noDetectionsMsg ≠ genericFailureMsg ∧
      (handleAnalyze true true ⟨1, 1, 0⟩ (fun _ => false) (fun _ => none) 3
        ⟨none, false, 0, [], [], none⟩).trajectory = ([] : List HawkEyePoint) ∧
      (handleAnalyze true true ⟨1, 1, 0⟩ (fun _ => false) (fun _ => none) 3
        ⟨none, false, 0, [], [], none⟩).detections = ([] : List DetectionPoint) ∧
      (handleAnalyze true true ⟨1, 1, 0⟩ (fun _ => false) (fun _ => none) 3
        ⟨none, false, 0, [], [], none⟩).isAnalyzing = false) :=
  ⟨by decide,
    analyze_zero_detections_specific_error ⟨1, 1, 0⟩ (fun _ => false) (fun _ => none) 3
      ⟨none, false, 0, [], [], none⟩ (by decide)⟩

/-- Claim C5: `extractDetections` throws the descriptive missing-dimensions
message if and only if the video's intrinsic width or height is unavailable
(zero); in that case no sampling step runs (no progress is ever reported) and
the failure propagates through `handleAnalyze` as the run's terminal outcome:
the error is surfaced once, analysis stops, and nothing else changes. -/
theorem extract_dims_precondition_iff (v : Video) (sf : ℚ → Bool)
    (det : ℚ → Option Candidate) (now : ℕ) (s : UiState) :
    ((extractDetections v sf det).2 = Except.error dimsUnavailableMsg ↔
      (v.width = 0 ∨ v.height = 0)) ∧
    ((v.width = 0 ∨ v.height = 0) →
      (extractDetections v sf det).1 = [] ∧
      handleAnalyze true true v sf det now s =
        { s with
            error := some dimsUnavailableMsg
            isAnalyzing := false
            progress := 0 }) := by
  by_cases hc : v.width = 0 ∨ v.height = 0
  · refine ⟨⟨fun _ => hc, fun _ => ?_⟩, fun _ => ⟨?_, ?_⟩⟩
    · simp [extractDetections, hc]
    · simp [extractDetections, hc]
    · cases s
      simp [handleAnalyze, extractDetections, hc]
  · refine ⟨⟨fun habs => absurd ?_ hc, fun habs => absurd habs hc⟩, fun habs => absurd habs hc⟩
    exfalso
    rw [extractDetections, if_neg hc] at habs
    have := sampleLoop_error_eq sf det v.width v.height v.duration _ _ _ _ _ _ habs
    exact absurd this (by decide)

/-- Claim C5 witness: a video with zero intrinsic width. -/
theorem extract_dims_precondition_iff_witness :
    ((Video.mk 0 5 1).width = 0 ∨ (Video.mk 0 5 1).height = 0) ∧
    ((extractDetections ⟨0, 5, 1⟩ (fun _ => false) (fun _ => none)).1 = [] ∧
      handleAnalyze true true ⟨0, 5, 1⟩ (fun _ => false) (fun _ => none) 3
          ⟨none, false, 0, [], [], none⟩ =
        { (⟨none, false, 0, [], [], none⟩ : UiState) with
            error := some dimsUnavailableMsg
            isAnalyzing := false
            progress := 0 }) :=
  ⟨by decide,
    (extract_dims_precondition_iff ⟨0, 5, 1⟩ (fun _ => false) (fun _ => none) 3
      ⟨none, false, 0, [], [], none⟩).2 (by decide)⟩

/-- Claim C6: whenever `detectBall` returns a candidate, its confidence is
`min(1, bestScore/1500)` with `bestScore` the maximum combined score
(circularity × area) over the contours passing the area-threshold and
nonzero-perimeter filters, and therefore lies in `[0, 1]`; every
DetectionPoint the sampler builds from the localizer inherits a confidence in
`[0, 1]`. -/
theorem detect_confidence_normalized :
    (∀ (fd : FrameData) (r : Candidate), (detectBall fd).1 = some r →
      r.confidence = min 1 (bestScoreSpec fd / 1500) ∧
        0 ≤ r.confidence ∧ r.confidence ≤ 1) ∧
    (∀ (v : Video) (sf : ℚ → Bool) (fr : ℚ → FrameData)
        (ds : List DetectionPoint) (dp : DetectionPoint),
      (extractDetections v sf fun t => (detectBall (fr t)).1).2 = Except.ok ds →
      dp ∈ ds → 0 ≤ dp.confidence ∧ dp.confidence ≤ 1) := by
  constructor
  · intro fd r h
    exact ⟨detectBall_some_confidence fd r h, detectBall_confidence_mem fd r h⟩
  · intro v sf fr ds dp hok hmem
    by_cases hc : v.width = 0 ∨ v.height = 0
    · rw [extractDetections, if_pos hc] at hok
      simp at hok
    · rw [extractDetections, if_neg hc] at hok
      refine sampleLoop_detections_mem sf _ v.width v.height v.duration _
        (fun dp => 0 ≤ dp.confidence ∧ dp.confidence ≤ 1) ?_ _ _ _ _ _ ?_ hok dp hmem
      · intro t c hdet
        simpa [mkDetection] using detectBall_confidence_mem (fr t) c hdet
      · intro dp' hdp'
        simp at hdp'

/-- Claim C6 witness: a frame with one qualifying contour (area 20,
perimeter 10) yields a candidate with confidence `16·π/1500`, normalized from
`bestScore = 16·π`, inside `[0, 1]`. -/
theorem detect_confidence_normalized_witness :
    (detectBall ⟨false, 100, 100, [⟨20, 10, 1, 50, 50⟩]⟩).1 =
      some ⟨50, 50, 16 * mathPI / 1500⟩ ∧
    ((Candidate.mk 50 50 (16 * mathPI / 1500)).confidence =
        min 1 (bestScoreSpec ⟨false, 100, 100, [⟨20, 10, 1, 50, 50⟩]⟩ / 1500) ∧
      0 ≤ (Candidate.mk 50 50 (16 * mathPI / 1500)).confidence ∧
      (Candidate.mk 50 50 (16 * mathPI / 1500)).confidence ≤ 1) :=
  ⟨by decide,
    detect_confidence_normalized.1 ⟨false, 100, 100, [⟨20, 10, 1, 50, 50⟩]⟩
      ⟨50, 50, 16 * mathPI / 1500⟩ (by decide)⟩

/-- Claim C7: the detection sequence returned by `extractDetections` is
strictly increasing in time, and every returned DetectionPoint has
`normX = x/width` and `normY = y/height` exactly. -/
theorem extract_detections_strictly_ordered (v : Video) (sf : ℚ → Bool)
    (det : ℚ → Option Candidate) (ds : List DetectionPoint)
    (h : (extractDetections v sf det).2 = Except.ok ds) :
    List.Chain' (fun a b : DetectionPoint => a.time < b.time) ds ∧
    ∀ dp ∈ ds, dp.normX = (dp.x : ℚ) / (v.width : ℚ) ∧
      dp.normY = (dp.y : ℚ) / (v.height : ℚ) := by
  by_cases hc : v.width = 0 ∨ v.height = 0
  · rw [extractDetections, if_pos hc] at h
    simp at h
  · rw [extractDetections, if_neg hc] at h
    constructor
    · refine sampleLoop_times_chain sf det v.width v.height v.duration _ ?_ _ _ _ _ _
        ?_ List.chain'_nil h
      · exact lt_of_lt_of_le (by norm_num [SAMPLE_INTERVAL_SECONDS]) (le_max_left _ _)
      · intro dp hdp
        simp at hdp
    · refine sampleLoop_detections_mem sf det v.width v.height v.duration _
        (fun dp => dp.normX = (dp.x : ℚ) / (v.width : ℚ) ∧
          dp.normY = (dp.y : ℚ) / (v.height : ℚ)) ?_ _ _ _ _ _ ?_ h
      · intro t c _
        exact ⟨rfl, rfl⟩
      · intro dp hdp
        simp at hdp

/-- Claim C7 witness: a 0.08 s clip with a constant localizer hit yields two
detections at strictly increasing times 0 and 0.08 with exact normalized
coordinates. -/
theorem extract_detections_strictly_ordered_witness :
    (extractDetections ⟨10, 10, 2 / 25⟩ (fun _ => false) (fun _ => some ⟨5, 7, 1 / 2⟩)).2 =
      Except.ok [⟨0, 5, 7, 1 / 2, 7 / 10, 1 / 2⟩, ⟨2 / 25, 5, 7, 1 / 2, 7 / 10, 1 / 2⟩] ∧
    List.Chain' (fun a b : DetectionPoint => a.time < b.time)
      [⟨0, 5, 7, 1 / 2, 7 / 10, 1 / 2⟩, ⟨2 / 25, 5, 7, 1 / 2, 7 / 10, 1 / 2⟩] :=
  ⟨by decide,
    (extract_detections_strictly_ordered ⟨10, 10, 2 / 25⟩ (fun _ => false)
      (fun _ => some ⟨5, 7, 1 / 2⟩)
      [⟨0, 5, 7, 1 / 2, 7 / 10, 1 / 2⟩, ⟨2 / 25, 5, 7, 1 / 2, 7 / 10, 1 / 2⟩]
      (by decide)).1⟩

/-- Claim C8: the bounce point is the first point (index > 0, in time order)
whose height is strictly below its immediate predecessor's height
(`firstDescent`); the `HawkEyeView` scan computes exactly that point, the
summary's `bounceDistance` is that point's `distance`, and when no point's
height decreases versus its predecessor the bounce is absent. -/
theorem bounce_is_first_height_descent (ds : List DetectionPoint)
    (ps : List HawkEyePoint) :
    hawkBouncePoint ps = firstDescent ps ∧
    (summarizeTrajectory ds ps).bounceDistance =
      (firstDescent ps).map (fun p => p.distance) ∧
    (List.Chain' (fun a b => a.height ≤ b.height) ps → hawkBouncePoint ps = none) := by
  refine ⟨hawkBouncePoint_eq_firstDescent ps, rfl, fun hch => ?_⟩
  rw [hawkBouncePoint_eq_firstDescent ps]
  exact firstDescent_eq_none_of_chain ps hch

/-- Claim C8 witness: on a trajectory whose height rises then falls, the
bounce is the first descending sample; on a monotonically rising trajectory
the bounce is absent. -/
theorem bounce_is_first_height_descent_witness :
    hawkBouncePoint [⟨0, 1, 0, 1, 1⟩, ⟨1, 3, 0, 2, 1⟩, ⟨2, 5, 0, 3, 1⟩] =
      firstDescent [⟨0, 1, 0, 1, 1⟩, ⟨1, 3, 0, 2, 1⟩, ⟨2, 5, 0, 3, 1⟩] ∧
    (summarizeTrajectory []
        [⟨0, 1, 0, 1, 1⟩, ⟨1, 3, 0, 2, 1⟩, ⟨2, 5, 0, 3, 1⟩]).bounceDistance =
      (firstDescent [⟨0, 1, 0, 1, 1⟩, ⟨1, 3, 0, 2, 1⟩, ⟨2, 5, 0, 3, 1⟩]).map
        (fun p => p.distance) ∧
    hawkBouncePoint [⟨0, 1, 0, 1, 1⟩, ⟨1, 3, 0, 2, 1⟩, ⟨2, 5, 0, 3, 1⟩] = none :=
  ⟨(bounce_is_first_height_descent [] [⟨0, 1, 0, 1, 1⟩, ⟨1, 3, 0, 2, 1⟩, ⟨2, 5, 0, 3, 1⟩]).1,
    (bounce_is_first_height_descent [] [⟨0, 1, 0, 1, 1⟩, ⟨1, 3, 0, 2, 1⟩, ⟨2, 5, 0, 3, 1⟩]).2.1,
    (bounce_is_first_height_descent [] [⟨0, 1, 0, 1, 1⟩, ⟨1, 3, 0, 2, 1⟩, ⟨2, 5, 0, 3, 1⟩]).2.2
      (by
        refine List.chain'_cons.mpr ⟨by decide, ?_⟩
        exact List.chain'_pair.mpr (by decide))⟩

/-- Claim C9: the projector returns a sequence of exactly the same length and
order, preserving `time` and `confidence` at every index. -/
theorem project_preserves_length_time_confidence (ds : List DetectionPoint) :
    (convertDetectionsToHawkEye ds).length = ds.length ∧
    ∀ i : ℕ,
      ((convertDetectionsToHawkEye ds)[i]?.map fun p => p.time) =
        (ds[i]?.map fun d => d.time) ∧
      ((convertDetectionsToHawkEye ds)[i]?.map fun p => p.confidence) =
        (ds[i]?.map fun d => d.confidence) := by
  refine ⟨by simp [convertDetectionsToHawkEye], fun i => ?_⟩
  rcases hx : ds[i]? with _ | d <;>
    simp [convertDetectionsToHawkEye, List.getElem?_map, hx]

/-- Claim C10: `handleAnalyze` leaves the committed detections, trajectory
and analysis timestamp untouched on every failing run (seek/decode error,
missing-dimensions precondition, or zero detections) — updating only the
error, progress and analyzing flag — and commits detections and trajectory
together, with a fresh timestamp, exactly when sampling succeeded with a
non-empty result. -/
theorem analyze_commits_only_on_success (v : Video) (sf : ℚ → Bool)
    (det : ℚ → Option Candidate) (now : ℕ) (s : UiState) :
    (∀ e, (extractDetections v sf det).2 = Except.error e →
      (handleAnalyze true true v sf det now s).detections = s.detections ∧
      (handleAnalyze true true v sf det now s).trajectory = s.trajectory ∧
      (handleAnalyze true true v sf det now s).analysisTimestamp = s.analysisTimestamp ∧
      (handleAnalyze true true v sf det now s).isAnalyzing = false ∧
      (handleAnalyze true true v sf det now s).error = some e) ∧
    ((extractDetections v sf det).2 = Except.ok [] →
      (handleAnalyze true true v sf det now s).detections = s.detections ∧
      (handleAnalyze true true v sf det now s).trajectory = s.trajectory ∧
      (handleAnalyze true true v sf det now s).analysisTimestamp = s.analysisTimestamp ∧
      (handleAnalyze true true v sf det now s).isAnalyzing = false ∧
      (handleAnalyze true true v sf det now s).error = some noDetectionsMsg) ∧
    (∀ ds, (extractDetections v sf det).2 = Except.ok ds → ds ≠ [] →
      (handleAnalyze true true v sf det now s).detections = ds ∧
      (handleAnalyze true true v sf det now s).trajectory = convertDetectionsToHawkEye ds ∧
      (handleAnalyze true true v sf det now s).analysisTimestamp = some now ∧
      (handleAnalyze true true v sf det now s).error = none ∧
      (handleAnalyze true true v sf det now s).isAnalyzing = false ∧
      (handleAnalyze true true v sf det now s).progress = 1) := by
  rcases hE : extractDetections v sf det with ⟨reports, res⟩
  refine ⟨?_, ?_, ?_⟩
  · intro e he
    simp only at he
    subst he
    refine ⟨?_, ?_, ?_, ?_, ?_⟩ <;> simp [handleAnalyze, hE]
  · intro he
    simp only at he
    subst he
    refine ⟨?_, ?_, ?_, ?_, ?_⟩ <;> simp [handleAnalyze, hE]
  · intro ds he hne
    simp only at he
    subst he
    refine ⟨?_, ?_, ?_, ?_, ?_, ?_⟩ <;>
      simp [handleAnalyze, hE, List.isEmpty_iff, hne]

/-- Claim C10 witness: a run whose first seek fails keeps the previously
committed detections, trajectory and timestamp. -/
theorem analyze_commits_only_on_success_witness :
    (extractDetections ⟨1, 1, 1⟩ (fun _ => true) (fun _ => none)).2 =
      Except.error seekFailMsg ∧
    ((handleAnalyze true true ⟨1, 1, 1⟩ (fun _ => true) (fun _ => none) 9
        ⟨none, false, 7 / 10, [⟨0, 1, 1, 1, 1, 1⟩], [⟨0, 2, 0, 1, 1⟩], some 5⟩).detections =
      (⟨none, false, 7 / 10, [⟨0, 1, 1, 1, 1, 1⟩], [⟨0, 2, 0, 1, 1⟩],
        some 5⟩ : UiState).detections ∧
    (handleAnalyze true true ⟨1, 1, 1⟩ (fun _ => true) (fun _ => none) 9
        ⟨none, false, 7 / 10, [⟨0, 1, 1, 1, 1, 1⟩], [⟨0, 2, 0, 1, 1⟩], some 5⟩).trajectory =
      (⟨none, false, 7 / 10, [⟨0, 1, 1, 1, 1, 1⟩], [⟨0, 2, 0, 1, 1⟩],
        some 5⟩ : UiState).trajectory ∧
    (handleAnalyze true true ⟨1, 1, 1⟩ (fun _ => true) (fun _ => none) 9
        ⟨none, false, 7 / 10, [⟨0, 1, 1, 1, 1, 1⟩], [⟨0, 2, 0, 1, 1⟩],
          some 5⟩).analysisTimestamp =
      (⟨none, false, 7 / 10, [⟨0, 1, 1, 1, 1, 1⟩], [⟨0, 2, 0, 1, 1⟩],
        some 5⟩ : UiState).analysisTimestamp ∧
    (handleAnalyze true true ⟨1, 1, 1⟩ (fun _ => true) (fun _ => none) 9
        ⟨none, false, 7 / 10, [⟨0, 1, 1, 1, 1, 1⟩], [⟨0, 2, 0, 1, 1⟩],
          some 5⟩).isAnalyzing = false ∧
    (handleAnalyze true true ⟨1, 1, 1⟩ (fun _ => true) (fun _ => none) 9
        ⟨none, false, 7 / 10, [⟨0, 1, 1, 1, 1, 1⟩], [⟨0, 2, 0, 1, 1⟩],
          some 5⟩).error = some seekFailMsg) :=
  ⟨by decide,
    (analyze_commits_only_on_success ⟨1, 1, 1⟩ (fun _ => true) (fun _ => none) 9
      ⟨none, false, 7 / 10, [⟨0, 1, 1, 1, 1, 1⟩], [⟨0, 2, 0, 1, 1⟩], some 5⟩).1
      seekFailMsg (by decide)⟩

-- MORE







end
